import Mathlib

/-!
Verification of the async chess client's board state machine, worker
classification logic and controller loop, shallowly embedded from the
Rust sources (`src/chess/boards/board.rs`, `src/chess/coords.rs`,
`src/net/server_interface.rs`, `src/net/list_refresher.rs`,
`binaries/piston_and_egui/game.rs`).

Machine integers are modelled as `Nat`/`Int`; a Rust operation that can
abort the process (a failed unwrap or an out-of-bounds index) is modelled
as `Option` returning `none`, and fallible Rust functions returning
`Result` are modelled with `Except String`.
-/

namespace AsyncChess

/-- The six chess piece kinds, from `ChessPieceKind` in `chess_piece.rs`
(declaration order preserved, which is the `EnumIter` iteration order). -/
inductive ChessPieceKind where
  | Bishop
  | Knight
  | Pawn
  | Queen
  | King
  | Rook
deriving DecidableEq

/-- A chess piece: kind plus colour, from `ChessPiece` in `chess_piece.rs`. -/
structure ChessPiece where
  kind : ChessPieceKind
  is_white : Bool
deriving DecidableEq

/-- Coordinates: off the board (captured) or on the board at `(x, y)`.
The Rust type stores `u8` components; values are natural numbers below 256. -/
inductive Coords where
  | OffBoard
  | OnBoard (x y : Nat)
deriving DecidableEq

/-- `impl TryFrom<(i32, i32)> for Coords` in `coords.rs`: exactly `(-1, -1)`
maps to `OffBoard`; any other negative or above-7 component is an error. -/
def Coords.tryFromI32 (x y : Int) : Except String Coords :=
  if x = -1 ∧ y = -1 then .ok .OffBoard
  else if x < 0 then .error "x < 0"
  else if x > 7 then .error "x > 7"
  else if y < 0 then .error "y < 0"
  else if y > 7 then .error "y > 7"
  else .ok (.OnBoard x.toNat y.toNat)

/-- `impl TryFrom<(u32, u32)> for Coords` in `coords.rs`: checked conversion,
never produces `OffBoard`. -/
def Coords.tryFromU32 (x y : Nat) : Except String Coords :=
  if x > 7 then .error "x > 7"
  else if y > 7 then .error "y > 7"
  else .ok (.OnBoard x y)

/-- `impl From<(u8, u8)> for Coords` in `coords.rs`: unchecked, any `u8`
pair is accepted as an on-board coordinate. -/
def Coords.fromU8Pair (x y : Nat) : Coords := .OnBoard x y

/-- `Coords::to_usize`: `y * 8 + x` computed in `u8` arithmetic (hence the
reduction modulo 256), `none` for `OffBoard`. -/
def Coords.to_usize : Coords → Option Nat
  | .OffBoard => none
  | .OnBoard x y => some ((y * 8 + x) % 256)

/-- `JSONMove` from `server_interface.rs`: game id, source square `(x, y)`
and destination square `(nx, ny)`, all `u32`. -/
structure JSONMove where
  id : Nat
  x : Nat
  y : Nat
  nx : Nat
  ny : Nat
deriving DecidableEq

/-- `JSONMove::current_coords`: checked conversion of the source square;
the Rust code aborts on failure, modelled by `Option`. -/
def JSONMove.current_coords (m : JSONMove) : Option Coords :=
  (Coords.tryFromU32 m.x m.y).toOption

/-- `JSONMove::new_coords`: checked conversion of the destination square. -/
def JSONMove.new_coords (m : JSONMove) : Option Coords :=
  (Coords.tryFromU32 m.nx m.ny).toOption

/-- The board from `board.rs`: 64 optional pieces indexed by `y * 8 + x`,
the taken-pieces list, and the cached previous move
`(move, piece taken, original kind of the moved piece)`.  The Rust type
carries a phantom state (`CanMovePiece` / `NeedsMoveUpdate`); here the
state is tracked by which operations are applied. -/
structure Board where
  pieces : List (Option ChessPiece)
  taken : List ChessPiece
  previous : Option (JSONMove × Option ChessPiece × ChessPieceKind)
deriving DecidableEq

/-- `Default for Board<CanMovePiece>`: the empty board. -/
def Board.defaultBoard : Board :=
  { pieces := List.replicate 64 none, taken := [], previous := none }

/-- The `Index<Coords>` impl: `none` models the abort on an off-board or
out-of-range index, `some v` is the square's content. -/
def Board.read (b : Board) (c : Coords) : Option (Option ChessPiece) :=
  match c.to_usize with
  | none => none
  | some i => b.pieces[i]?

/-- The `IndexMut<Coords>` impl used for writes: `none` models the abort on
an off-board or out-of-range index. -/
def Board.write (b : Board) (c : Coords) (v : Option ChessPiece) : Option Board :=
  match c.to_usize with
  | none => none
  | some i =>
      if i < b.pieces.length then some { b with pieces := b.pieces.set i v }
      else none

/-- `Board::piece_exists_at_location`. -/
def Board.piece_exists_at_location (b : Board) (c : Coords) : Bool :=
  match c.to_usize with
  | none => false
  | some i =>
      match b.pieces[i]? with
      | some (some _) => true
      | _ => false

/-- `Board::get_taken`. -/
def Board.get_taken (b : Board) : List ChessPiece := b.taken

/-- `Board::<CanMovePiece>::make_move`, step by step as in the source:
abort if a previous move is uncleared; record
`(m, occupant of the destination, kind of the piece at the source)` into
`previous` (aborting when the source square is empty or either square is
invalid); take the piece out of the source square and put it into the
destination square; finally promote to queen on the player's back rank. -/
def Board.make_move (b : Board) (m : JSONMove) : Option Board :=
  if b.previous.isSome then none
  else
    match m.new_coords with
    | none => none
    | some nc =>
      match m.current_coords with
      | none => none
      | some cc =>
        match b.read nc with
        | none => none
        | some destVal =>
          match b.read cc with
          | none => none
          | some none => none
          | some (some cur) =>
            match ({ b with previous := some (m, destVal, cur.kind) } : Board).write cc none with
            | none => none
            | some b1 =>
              match b1.write nc (some cur) with
              | none => none
              | some b2 =>
                match b2.read nc with
                | none => none
                | some none => some b2
                | some (some p) =>
                  if (p.is_white && m.ny == 0) || (!p.is_white && m.ny == 7) then
                    b2.write nc (some { p with kind := ChessPieceKind.Queen })
                  else some b2

/-- `Board::<NeedsMoveUpdate>::undo_move`: restore the source square from
the destination square, restore the destination square from the cached
taken piece, and restore the moved piece's original kind; aborts when no
previous move is cached. -/
def Board.undo_move (b : Board) : Option Board :=
  match b.previous with
  | none => none
  | some (m, tk, old_kind) =>
    match m.current_coords with
    | none => none
    | some cc =>
      match m.new_coords with
      | none => none
      | some nc =>
        match ({ b with previous := none } : Board).read nc with
        | none => none
        | some nv =>
          match ({ b with previous := none } : Board).write cc nv with
          | none => none
          | some b1 =>
            match b1.write nc tk with
            | none => none
            | some b2 =>
              match b2.read cc with
              | none => none
              | some none => some b2
              | some (some piece) =>
                b2.write cc (some { piece with kind := old_kind })

/-- `Board::<NeedsMoveUpdate>::move_worked`: when `taken` is true, pop the
cached previous move (aborting if there is none) and append the recorded
taken piece, if any, to the taken list; otherwise just clear the cache. -/
def Board.move_worked (b : Board) (tk : Bool) : Option Board :=
  if tk then
    match b.previous with
    | none => none
    | some (_, p, _) =>
      match p with
      | some p => some { b with previous := none, taken := b.taken ++ [p] }
      | none => some { b with previous := none }
  else
    some { b with previous := none }

/-- Rust `str::trim`: strip leading and trailing whitespace. -/
def rustTrim (s : String) : String :=
  String.mk (((s.data.dropWhile Char.isWhitespace).reverse.dropWhile Char.isWhitespace).reverse)

/-- Rust `str::to_lowercase` restricted to ASCII, which covers every kind
name the protocol uses. -/
def rustToLower (s : String) : String := String.mk (s.data.map Char.toLower)

/-- `impl TryFrom<String> for ChessPieceKind` in `chess_piece.rs`: trim,
lowercase, then match the six kind names. -/
def ChessPieceKind.fromString (value : String) : Except String ChessPieceKind :=
  let v := rustToLower (rustTrim value)
  match v with
  | "bishop" => .ok .Bishop
  | "knight" => .ok .Knight
  | "pawn" => .ok .Pawn
  | "queen" => .ok .Queen
  | "king" => .ok .King
  | "rook" => .ok .Rook
  | _ => .error v

/-- `strum::Display` for `ChessPieceKind`: the variant name. -/
def ChessPieceKind.name : ChessPieceKind → String
  | .Bishop => "Bishop"
  | .Knight => "Knight"
  | .Pawn => "Pawn"
  | .Queen => "Queen"
  | .King => "King"
  | .Rook => "Rook"

/-- `EnumIter` order for `ChessPieceKind`: declaration order. -/
def ChessPieceKind.iterAll : List ChessPieceKind :=
  [.Bishop, .Knight, .Pawn, .Queen, .King, .Rook]

/-- `JSONPiece` from `server_interface.rs`. -/
structure JSONPiece where
  x : Int
  y : Int
  kind : String
  is_white : Bool
deriving DecidableEq

/-- Loop body of `JSONPieceList::into_game_list`, folding over the piece
list while filling the 64-square grid and the taken list. -/
def intoGameListAux :
    List JSONPiece → List (Option ChessPiece) → List ChessPiece →
      Except String (List (Option ChessPiece) × List ChessPiece)
  | [], v, v2 => .ok (v, v2)
  | p :: rest, v, v2 =>
    match ChessPieceKind.fromString p.kind with
    | .error e => .error e
    | .ok k =>
      let piece : ChessPiece := { kind := k, is_white := p.is_white }
      match Coords.tryFromI32 p.x p.y with
      | .error e => .error e
      | .ok coords =>
        match coords.to_usize with
        | some us =>
          match v[us]? with
          | none => .error "getting index from vector in into_game_list"
          | some cur =>
            if cur.isSome then .error "Collision"
            else intoGameListAux rest (v.set us (some piece)) v2
        | none => intoGameListAux rest v (v2 ++ [piece])

/-- `JSONPieceList::into_game_list`. -/
def into_game_list (l : List JSONPiece) :
    Except String (List (Option ChessPiece) × List ChessPiece) :=
  intoGameListAux l (List.replicate 64 none) []

/-- `Board::<CanMovePiece>::new_json`. -/
def Board.new_json (l : List JSONPiece) : Except String Board :=
  match into_game_list l with
  | .error e => .error e
  | .ok (pieces, taken) => .ok { pieces := pieces, taken := taken, previous := none }

/-- The helper closure `p` inside `no_connection_list`. -/
def nclPiece (x y : Int) : JSONPiece :=
  { x := x, y := y, is_white := (x + y) % 2 == 1, kind := "rook" }

/-- The piece list built by `no_connection_list` in `server_interface.rs`:
29 rooks spelling "uh oh" on the board plus two full captured sets. -/
def nclPieces : List JSONPiece :=
  [nclPiece 0 0, nclPiece 2 0, nclPiece 5 0, nclPiece 7 0,
   nclPiece 0 1, nclPiece 2 1, nclPiece 5 1, nclPiece 6 1, nclPiece 7 1,
   nclPiece 0 2, nclPiece 1 2, nclPiece 2 2, nclPiece 5 2, nclPiece 7 2,
   nclPiece 0 5, nclPiece 1 5, nclPiece 2 5, nclPiece 5 5, nclPiece 7 5,
   nclPiece 0 6, nclPiece 2 6, nclPiece 5 6, nclPiece 6 6, nclPiece 7 6,
   nclPiece 0 7, nclPiece 1 7, nclPiece 2 7, nclPiece 5 7, nclPiece 7 7] ++
  (List.replicate 2 ()).flatMap (fun _ =>
    ChessPieceKind.iterAll.flatMap (fun k =>
      [{ x := -1, y := -1, kind := k.name, is_white := false },
       { x := -1, y := -1, kind := k.name, is_white := true }]))

/-- `no_connection_list`: builds the placeholder board; the Rust function
aborts if the list were invalid, modelled by `Option`. -/
def no_connection_list : Option Board := (Board.new_json nclPieces).toOption

/-- `MoveOutcome` from `list_refresher.rs`. -/
inductive MoveOutcome where
  | Worked (tk : Bool)
  | Invalid
  | CouldntProcessMove
deriving DecidableEq

/-- `BoardMessage` from `list_refresher.rs` (the payload of
`MessageToGame::UpdateBoard`, the only event variant). -/
inductive BoardMessage where
  | TmpMove (m : JSONMove)
  | Move (o : MoveOutcome)
  | UseExisting
  | NoConnectionList
  | NewList (l : List JSONPiece)
deriving DecidableEq

/-- `MessageToWorker` from `list_refresher.rs`. -/
inductive MessageToWorker where
  | UpdateList
  | UpdateNOW
  | RestartBoard
  | InvalidateKill
  | MakeMove (m : JSONMove)
deriving DecidableEq

/-- The possible results of one refresh round trip in `do_update_list`:
a transport or HTTP-status failure, a 208 Already Reported response, a
2xx response whose body parses to a piece list, or a 2xx response whose
body fails to parse. -/
inductive RefreshRoundTrip where
  | httpErr
  | ok208
  | okList (l : List JSONPiece)
  | okParseErr
deriving DecidableEq

/-- `do_update_list` from `list_refresher.rs`, as a function of the
`reqwest_error_at_last_refresh` flag and the round-trip result, returning
the new flag value and the emitted `BoardMessage`.  Mirrors the source's
two phases: the HTTP-result match (which stores `false` into the flag as
soon as the status is non-error, before the body is parsed) and the
failure branch (first failure emits `NoConnectionList` and sets the flag,
a repeat failure emits `UseExisting`). -/
def do_update_list (flag : Bool) (r : RefreshRoundTrip) : Bool × BoardMessage :=
  let step1 : Bool × Option BoardMessage :=
    match r with
    | .httpErr => (flag, none)
    | .ok208 => (false, some .UseExisting)
    | .okList l => (false, some (.NewList l))
    | .okParseErr => (false, none)
  match step1 with
  | (flag1, some msg) => (flag1, msg)
  | (flag1, none) =>
    if flag1 then (flag1, .UseExisting)
    else (true, .NoConnectionList)

/-- Iterated refreshes: thread the failure flag through a sequence of
round trips, collecting the emitted messages in order. -/
def runRefreshes (flag : Bool) : List RefreshRoundTrip → Bool × List BoardMessage
  | [] => (flag, [])
  | r :: rs =>
    let fm := do_update_list flag r
    let rest := runRefreshes fm.1 rs
    (rest.1, fm.2 :: rest.2)

/-- The result of the `POST movepiece` round trip in `do_make_move`: a
2xx response (carrying whether the body reports a piece as taken), a 412
Precondition Failed status, or any other failure. -/
inductive HttpMoveResult where
  | success (tk : Bool)
  | status412
  | otherErr
deriving DecidableEq

/-- One observable step of the worker: sending an event to the game, or
performing the network call. -/
inductive WorkerAction where
  | send (msg : BoardMessage)
  | netCall
deriving DecidableEq

/-- The outcome classification inside `do_make_move`: 2xx is
`Worked(taken)`, 412 is `Invalid`, anything else is
`CouldntProcessMove`. -/
def classify_move_rsp : HttpMoveResult → MoveOutcome
  | .success tk => .Worked tk
  | .status412 => .Invalid
  | .otherErr => .CouldntProcessMove

/-- `do_make_move` from `list_refresher.rs` as its trace of observable
actions: it first sends `TmpMove`, then performs the `POST movepiece`
call, then sends the classified outcome. -/
def do_make_move (m : JSONMove) (rsp : HttpMoveResult) : List WorkerAction :=
  [.send (.TmpMove m), .netCall, .send (.Move (classify_move_rsp rsp))]

/-- The closure spawned for `MessageToWorker::MakeMove` in `run_loop`:
if the move-in-flight flag is set, send `CouldntProcessMove` and change
nothing; otherwise set the flag, run `do_make_move`, and clear the flag.
Returns the final flag value and the trace of actions. -/
def make_move_arm (inflight : Bool) (m : JSONMove) (rsp : HttpMoveResult) :
    Bool × List WorkerAction :=
  if inflight then (inflight, [.send (.Move .CouldntProcessMove)])
  else (false, do_make_move m rsp)

/-- `BoardContainer` from `board_container.rs`:
`Either<Board<CanMovePiece>, Board<NeedsMoveUpdate>>`. -/
inductive BoardContainer where
  | Left (b : Board)
  | Right (b : Board)
deriving DecidableEq

/-- `BoardContainer::piece_exists_at_location`. -/
def BoardContainer.piece_exists_at_location : BoardContainer → Coords → Bool
  | .Left b, c => b.piece_exists_at_location c
  | .Right b, c => b.piece_exists_at_location c

/-- The controller state from `ChessGame` in `game.rs` (the fields the
protocol logic touches: asset cache and refresher handle omitted). -/
structure ChessGame where
  id : Nat
  board : BoardContainer
  last_pressed : Coords
  ex_last_pressed : Coords
deriving DecidableEq

/-- `ChessGame::mouse_input` from `game.rs`, with the pixel-to-square
conversion abstracted into the already-computed board coordinates `lp`.
Returns the new controller state and the messages sent to the worker.
A first press selects a square when a piece is there; a second press
sends `MakeMove` built from the selected square and the new press, and
touches the board in no way. -/
def mouse_input (g : ChessGame) (lp : Nat × Nat) :
    ChessGame × List MessageToWorker :=
  match g.last_pressed with
  | .OffBoard =>
    let g0 : ChessGame := { g with last_pressed := .OffBoard }
    match Coords.tryFromU32 lp.1 lp.2 with
    | .error _ => (g0, [])
    | .ok coord =>
      if g0.board.piece_exists_at_location coord then
        ({ g0 with last_pressed := coord }, [])
      else (g0, [])
  | .OnBoard x y =>
    ({ g with last_pressed := .OffBoard, ex_last_pressed := .OnBoard x y },
     [.MakeMove { id := g.id, x := x, y := y, nx := lp.1, ny := lp.2 }])

/-- The `match msg` body of `ChessGame::update_list`: apply one received
`BoardMessage` to the board container.  `none` models both the `bail!`
early returns (message not matching the container's side) and aborts
inside the board transitions. -/
def apply_board_message (bc : BoardContainer) (msg : BoardMessage) :
    Option BoardContainer :=
  match msg with
  | .TmpMove m =>
    match bc with
    | .Left bo => (bo.make_move m).map .Right
    | .Right _ => none
  | .Move o =>
    match bc with
    | .Right bo =>
      match o with
      | .Worked tk => (bo.move_worked tk).map .Left
      | .Invalid => bo.undo_move.map .Left
      | .CouldntProcessMove => bo.undo_move.map .Left
    | .Left _ => none
  | .NoConnectionList => no_connection_list.map .Left
  | .NewList l => (Board.new_json l).toOption.map .Left
  | .UseExisting => some bc

/-- `ChessGame::update_list` from `game.rs`: one non-blocking `try_recv`
(modelled by taking the head of the queued events, if any), application
of that single message to the board, then exactly one refresh command
(`UpdateNOW` when `ignore_timer`, else `UpdateList`).  Returns the new
state, the events still queued, and the commands sent. -/
def update_list (g : ChessGame) (queue : List BoardMessage) (ignore_timer : Bool) :
    Option (ChessGame × List BoardMessage × List MessageToWorker) :=
  let refresh : MessageToWorker := if ignore_timer then .UpdateNOW else .UpdateList
  match queue with
  | [] => some (g, [], [refresh])
  | msg :: rest =>
    match apply_board_message g.board msg with
    | none => none
    | some b2 => some ({ g with board := b2 }, rest, [refresh])

/-- The moved piece after the back-rank promotion check in `make_move`:
kind becomes Queen when a white piece lands on row 0 or a black piece on
row 7, otherwise the piece is unchanged. -/
def promoted (cur : ChessPiece) (m : JSONMove) : ChessPiece :=
  if (cur.is_white && m.ny == 0) || (!cur.is_white && m.ny == 7) then
    { cur with kind := ChessPieceKind.Queen }
  else cur

/-- The board a successful `make_move` produces: source square emptied,
destination square holding the (possibly promoted) moved piece, and the
previous-move cache set. -/
def movedBoard (b : Board) (m : JSONMove) (cur : ChessPiece) (dv : Option ChessPiece) : Board :=
  { pieces := (b.pieces.set (m.y * 8 + m.x) none).set (m.ny * 8 + m.nx) (some (promoted cur m)),
    taken := b.taken,
    previous := some (m, dv, cur.kind) }

/-- The JSON pieces with the off-board marker coordinates `(-1, -1)`,
converted; this is what the captured-list side of `into_game_list`
collects. -/
def offboardPieces (l : List JSONPiece) : List ChessPiece :=
  l.filterMap (fun p =>
    if p.x = -1 ∧ p.y = -1 then
      (ChessPieceKind.fromString p.kind).toOption.map
        (fun k => { kind := k, is_white := p.is_white })
    else none)

section Theorems

theorem tryFromU32_ok (x y : Nat) (hx : x ≤ 7) (hy : y ≤ 7) :
    Coords.tryFromU32 x y = .ok (.OnBoard x y) := by
  unfold Coords.tryFromU32
  rw [if_neg (by omega), if_neg (by omega)]

theorem to_usize_eq (x y : Nat) (hx : x ≤ 7) (hy : y ≤ 7) :
    Coords.to_usize (.OnBoard x y) = some (y * 8 + x) := by
  simp only [Coords.to_usize]
  rw [Nat.mod_eq_of_lt (by omega)]

theorem read_eq (b : Board) (x y : Nat) (hx : x ≤ 7) (hy : y ≤ 7) :
    b.read (.OnBoard x y) = b.pieces[y * 8 + x]? := by
  unfold Board.read
  rw [to_usize_eq x y hx hy]

theorem write_eq (b : Board) (x y : Nat) (v : Option ChessPiece)
    (hx : x ≤ 7) (hy : y ≤ 7) (hl : y * 8 + x < b.pieces.length) :
    b.write (.OnBoard x y) v = some { b with pieces := b.pieces.set (y * 8 + x) v } := by
  unfold Board.write
  rw [to_usize_eq x y hx hy]
  simp [hl]

theorem make_move_eq (b : Board) (m : JSONMove) (cur : ChessPiece) (dv : Option ChessPiece)
    (hlen : b.pieces.length = 64) (hprev : b.previous = none)
    (hx : m.x ≤ 7) (hy : m.y ≤ 7) (hnx : m.nx ≤ 7) (hny : m.ny ≤ 7)
    (hcur : b.pieces[m.y * 8 + m.x]? = some (some cur))
    (hdv : b.pieces[m.ny * 8 + m.nx]? = some dv) :
    b.make_move m = some (movedBoard b m cur dv) := by
  have hs : m.y * 8 + m.x < 64 := by omega
  have hd : m.ny * 8 + m.nx < 64 := by omega
  simp only [Board.make_move, hprev, Option.isSome_none, Bool.false_eq_true, if_false,
    JSONMove.new_coords, JSONMove.current_coords,
    tryFromU32_ok m.nx m.ny hnx hny, tryFromU32_ok m.x m.y hx hy, Except.toOption,
    read_eq b m.nx m.ny hnx hny, read_eq b m.x m.y hx hy, hcur, hdv]
  rw [write_eq { pieces := b.pieces, taken := b.taken, previous := some (m, dv, cur.kind) }
    m.x m.y none hx hy (by simp only [hlen]; omega)]
  simp only []
  rw [write_eq _ m.nx m.ny (some cur) hnx hny (by simp only [List.length_set, hlen]; omega)]
  simp only []
  rw [read_eq _ m.nx m.ny hnx hny]
  simp only []
  rw [List.getElem?_set_self (by simp only [List.length_set, hlen]; omega)]
  simp only []
  unfold movedBoard promoted
  by_cases hc : (cur.is_white && m.ny == 0 || !cur.is_white && m.ny == 7) = true
  · rw [if_pos hc, if_pos hc]
    rw [write_eq _ m.nx m.ny _ hnx hny (by simp only [List.length_set, hlen]; omega)]
    simp only [List.set_set]
  · rw [if_neg hc, if_neg hc]

theorem promoted_is_white (cur : ChessPiece) (m : JSONMove) :
    (promoted cur m).is_white = cur.is_white := by
  unfold promoted
  split <;> rfl

theorem set_restore {α : Type} (l : List α) (s d : Nat) (v0 v1 v2 c dvv : α)
    (hcur : l[s]? = some c) (hdvv : l[d]? = some dvv) :
    ((((l.set s v0).set d v1).set s v2).set d dvv).set s c = l := by
  have hs : s < l.length := by
    by_contra h
    rw [List.getElem?_eq_none (by omega)] at hcur
    exact absurd hcur (by simp)
  have hd : d < l.length := by
    by_contra h
    rw [List.getElem?_eq_none (by omega)] at hdvv
    exact absurd hdvv (by simp)
  apply List.ext_getElem?
  intro j
  simp only [List.getElem?_set, List.length_set]
  by_cases hjs : s = j <;> by_cases hjd : d = j <;> simp_all

theorem undo_moved_eq (b : Board) (m : JSONMove) (cur : ChessPiece) (dv : Option ChessPiece)
    (hlen : b.pieces.length = 64)
    (hx : m.x ≤ 7) (hy : m.y ≤ 7) (hnx : m.nx ≤ 7) (hny : m.ny ≤ 7)
    (hcur : b.pieces[m.y * 8 + m.x]? = some (some cur))
    (hdv : b.pieces[m.ny * 8 + m.nx]? = some dv) :
    (movedBoard b m cur dv).undo_move =
      some { pieces := b.pieces, taken := b.taken, previous := none } := by
  have hs : m.y * 8 + m.x < 64 := by omega
  have hd : m.ny * 8 + m.nx < 64 := by omega
  unfold Board.undo_move movedBoard
  simp only [JSONMove.new_coords, JSONMove.current_coords,
    tryFromU32_ok m.nx m.ny hnx hny, tryFromU32_ok m.x m.y hx hy, Except.toOption]
  rw [read_eq _ m.nx m.ny hnx hny]
  simp only []
  rw [List.getElem?_set_self (by simp only [List.length_set, hlen]; omega)]
  simp only []
  rw [write_eq _ m.x m.y _ hx hy (by simp only [List.length_set, hlen]; omega)]
  simp only []
  rw [write_eq _ m.nx m.ny dv hnx hny (by simp only [List.length_set, hlen]; omega)]
  simp only []
  rw [read_eq _ m.x m.y hx hy]
  simp only []
  by_cases hsd : m.y * 8 + m.x = m.ny * 8 + m.nx
  · rw [hsd] at hcur ⊢
    have hdc : dv = some cur := by
      rw [hcur] at hdv
      exact (Option.some.inj hdv).symm
    rw [List.getElem?_set_self (by simp only [List.length_set, hlen]; omega), hdc]
    simp only []
    rw [write_eq _ m.x m.y _ hx hy (by simp only [List.length_set, hlen]; omega), hsd]
    exact congrArg (fun p => some ({ pieces := p, taken := b.taken, previous := none } : Board))
      (set_restore b.pieces _ _ _ _ _ (some cur) (some cur) hcur (hdc ▸ hdv))
  · rw [List.getElem?_set_ne (fun h => hsd h.symm),
      List.getElem?_set_self (by simp only [List.length_set, hlen]; omega)]
    simp only [promoted_is_white]
    rw [write_eq _ m.x m.y _ hx hy (by simp only [List.length_set, hlen]; omega)]
    exact congrArg (fun p => some ({ pieces := p, taken := b.taken, previous := none } : Board))
      (set_restore b.pieces _ _ _ _ _ (some cur) dv hcur hdv)

theorem piece_exists_elim (b : Board) (x y : Nat) (hx : x ≤ 7) (hy : y ≤ 7)
    (h : b.piece_exists_at_location (.OnBoard x y) = true) :
    ∃ cur, b.pieces[y * 8 + x]? = some (some cur) := by
  unfold Board.piece_exists_at_location at h
  rw [to_usize_eq x y hx hy] at h
  simp only [] at h
  cases hval : b.pieces[y * 8 + x]? with
  | none => rw [hval] at h; exact absurd h (by simp)
  | some o =>
    cases o with
    | none => rw [hval] at h; exact absurd h (by simp)
    | some cur => exact ⟨cur, rfl⟩

/-- Claim C1: for every board in the Ready state and every move whose
source square holds a piece and whose squares are both on the board,
`make_move` followed by `undo_move` restores the 64-square piece array
and the taken-pieces list exactly. -/
theorem claim_c1 (b : Board) (m : JSONMove)
    (hlen : b.pieces.length = 64) (hready : b.previous = none)
    (hx : m.x ≤ 7) (hy : m.y ≤ 7) (hnx : m.nx ≤ 7) (hny : m.ny ≤ 7)
    (hsrc : b.piece_exists_at_location (.OnBoard m.x m.y) = true) :
    ∃ b', b.make_move m = some b' ∧
      ∃ b'', b'.undo_move = some b'' ∧ b''.pieces = b.pieces ∧ b''.taken = b.taken := by
  obtain ⟨cur, hcur⟩ := piece_exists_elim b m.x m.y hx hy hsrc
  have hdlt : m.ny * 8 + m.nx < b.pieces.length := by omega
  obtain ⟨dv, hdv⟩ : ∃ dv, b.pieces[m.ny * 8 + m.nx]? = some dv :=
    ⟨_, List.getElem?_eq_getElem hdlt⟩
  exact ⟨_, make_move_eq b m cur _ hlen hready hx hy hnx hny hcur hdv,
    _, undo_moved_eq b m cur _ hlen hx hy hnx hny hcur hdv, rfl, rfl⟩

/-- Concrete instance of claim C1: a lone white pawn moved from square
`(0, 0)` to `(1, 1)` and rolled back leaves the board unchanged. -/
theorem claim_c1_witness :
    ∃ b', Board.make_move
        { pieces := (List.replicate 64 none).set 0
            (some { kind := ChessPieceKind.Pawn, is_white := true }),
          taken := [], previous := none }
        { id := 0, x := 0, y := 0, nx := 1, ny := 1 } = some b' ∧
      ∃ b'', b'.undo_move = some b'' ∧
        b''.pieces = (List.replicate 64 none).set 0
            (some { kind := ChessPieceKind.Pawn, is_white := true }) ∧
        b''.taken = [] :=
  claim_c1
    { pieces := (List.replicate 64 none).set 0
        (some { kind := ChessPieceKind.Pawn, is_white := true }),
      taken := [], previous := none }
    { id := 0, x := 0, y := 0, nx := 1, ny := 1 }
    (by decide) rfl (by decide) (by decide) (by decide) (by decide) (by decide)

/-- Claim C2, amended: when additionally the destination square differs
from the source and holds a piece, `make_move` then `move_worked true`
leaves the (possibly promoted) moved piece at the destination, empties
the source, and appends exactly the former destination occupant to the
taken list. -/
theorem claim_c2 (b : Board) (m : JSONMove) (cur victim : ChessPiece)
    (hlen : b.pieces.length = 64) (hready : b.previous = none)
    (hx : m.x ≤ 7) (hy : m.y ≤ 7) (hnx : m.nx ≤ 7) (hny : m.ny ≤ 7)
    (hcur : b.pieces[m.y * 8 + m.x]? = some (some cur))
    (hvictim : b.pieces[m.ny * 8 + m.nx]? = some (some victim))
    (hne : ¬(m.x = m.nx ∧ m.y = m.ny)) :
    ∃ b1, b.make_move m = some b1 ∧ ∃ b2, b1.move_worked true = some b2 ∧
      b2.pieces[m.ny * 8 + m.nx]? = some (some (promoted cur m)) ∧
      b2.pieces[m.y * 8 + m.x]? = some none ∧
      b2.taken = b.taken ++ [victim] := by
  have hsd : m.y * 8 + m.x ≠ m.ny * 8 + m.nx := by
    intro hEq
    exact hne ⟨by omega, by omega⟩
  refine ⟨_, make_move_eq b m cur (some victim) hlen hready hx hy hnx hny hcur hvictim,
    _, rfl, ?_, ?_, rfl⟩
  · show ((b.pieces.set (m.y * 8 + m.x) none).set (m.ny * 8 + m.nx)
      (some (promoted cur m)))[m.ny * 8 + m.nx]? = _
    rw [List.getElem?_set_self (by simp only [List.length_set, hlen]; omega)]
  · show ((b.pieces.set (m.y * 8 + m.x) none).set (m.ny * 8 + m.nx)
      (some (promoted cur m)))[m.y * 8 + m.x]? = some none
    rw [List.getElem?_set_ne (fun h => hsd h.symm)]
    rw [List.getElem?_set_self (by simp only [hlen]; omega)]

/-- Counterexample to claim C2 as stated: moving a lone pawn to an empty
destination square and committing with `taken = true` appends nothing to
the taken list, so the taken list does not grow by one. -/
theorem claim_c2_counterexample :
    ∃ b1 b2,
      Board.make_move
        { pieces := (List.replicate 64 none).set 0
            (some { kind := ChessPieceKind.Pawn, is_white := true }),
          taken := [], previous := none }
        { id := 0, x := 0, y := 0, nx := 1, ny := 1 } = some b1 ∧
      b1.move_worked true = some b2 ∧
      b2.taken = [] ∧
      ¬ b2.taken.length = ([] : List ChessPiece).length + 1 := by
  refine ⟨_, _, rfl, rfl, by decide, by decide⟩

/-- Concrete instance of amended claim C2: a white pawn capturing a black
rook on `(1, 1)` leaves the pawn at the destination, empties the source,
and appends the rook to the taken list. -/
theorem claim_c2_witness :
    ∃ b1,
      Board.make_move
        { pieces := ((List.replicate 64 none).set 0
            (some { kind := ChessPieceKind.Pawn, is_white := true })).set 9
            (some { kind := ChessPieceKind.Rook, is_white := false }),
          taken := [], previous := none }
        { id := 0, x := 0, y := 0, nx := 1, ny := 1 } = some b1 ∧
      ∃ b2, b1.move_worked true = some b2 ∧
        b2.pieces[(9 : Nat)]? = some (some (promoted
          { kind := ChessPieceKind.Pawn, is_white := true }
          { id := 0, x := 0, y := 0, nx := 1, ny := 1 })) ∧
        b2.pieces[(0 : Nat)]? = some none ∧
        b2.taken = [] ++ [{ kind := ChessPieceKind.Rook, is_white := false }] :=
  claim_c2
    { pieces := ((List.replicate 64 none).set 0
        (some { kind := ChessPieceKind.Pawn, is_white := true })).set 9
        (some { kind := ChessPieceKind.Rook, is_white := false }),
      taken := [], previous := none }
    { id := 0, x := 0, y := 0, nx := 1, ny := 1 }
    { kind := ChessPieceKind.Pawn, is_white := true }
    { kind := ChessPieceKind.Rook, is_white := false }
    (by decide) rfl (by decide) (by decide) (by decide) (by decide)
    (by decide) (by decide) (by decide)

/-- Claim C6: a move onto the back rank (row 0 for a white piece, row 7
for a black one) leaves a queen of the mover's colour at the destination,
and a subsequent `undo_move` restores the piece with its original kind at
the source square. -/
theorem claim_c6 (b : Board) (m : JSONMove) (cur : ChessPiece)
    (hlen : b.pieces.length = 64) (hready : b.previous = none)
    (hx : m.x ≤ 7) (hy : m.y ≤ 7) (hnx : m.nx ≤ 7) (hny : m.ny ≤ 7)
    (hcur : b.pieces[m.y * 8 + m.x]? = some (some cur))
    (hpromo : (cur.is_white = true ∧ m.ny = 0) ∨ (cur.is_white = false ∧ m.ny = 7)) :
    ∃ b', b.make_move m = some b' ∧
      b'.pieces[m.ny * 8 + m.nx]? =
        some (some { kind := ChessPieceKind.Queen, is_white := cur.is_white }) ∧
      ∃ b'', b'.undo_move = some b'' ∧
        b''.pieces[m.y * 8 + m.x]? = some (some cur) := by
  have hdlt : m.ny * 8 + m.nx < b.pieces.length := by omega
  obtain ⟨dv, hdv⟩ : ∃ dv, b.pieces[m.ny * 8 + m.nx]? = some dv :=
    ⟨_, List.getElem?_eq_getElem hdlt⟩
  have hP : promoted cur m = { kind := ChessPieceKind.Queen, is_white := cur.is_white } := by
    unfold promoted
    rcases hpromo with ⟨hw, h0⟩ | ⟨hw, h7⟩
    · rw [if_pos (by simp [hw, h0])]
    · rw [if_pos (by simp [hw, h7])]
  refine ⟨_, make_move_eq b m cur _ hlen hready hx hy hnx hny hcur hdv, ?_,
    _, undo_moved_eq b m cur _ hlen hx hy hnx hny hcur hdv, hcur⟩
  show ((b.pieces.set (m.y * 8 + m.x) none).set (m.ny * 8 + m.nx)
      (some (promoted cur m)))[m.ny * 8 + m.nx]? = _
  rw [List.getElem?_set_self (by simp only [List.length_set, hlen]; omega), hP]

/-- Concrete instance of claim C6, the spec's scenario: a white pawn
moved from `(3, 6)` to `(3, 0)` shows as a queen, and rolling back
restores the pawn. -/
theorem claim_c6_witness :
    ∃ b', Board.make_move
        { pieces := (List.replicate 64 none).set 51
            (some { kind := ChessPieceKind.Pawn, is_white := true }),
          taken := [], previous := none }
        { id := 0, x := 3, y := 6, nx := 3, ny := 0 } = some b' ∧
      b'.pieces[(3 : Nat)]? =
        some (some { kind := ChessPieceKind.Queen, is_white := true }) ∧
      ∃ b'', b'.undo_move = some b'' ∧
        b''.pieces[(51 : Nat)]? =
          some (some { kind := ChessPieceKind.Pawn, is_white := true }) :=
  claim_c6
    { pieces := (List.replicate 64 none).set 51
        (some { kind := ChessPieceKind.Pawn, is_white := true }),
      taken := [], previous := none }
    { id := 0, x := 3, y := 6, nx := 3, ny := 0 }
    { kind := ChessPieceKind.Pawn, is_white := true }
    (by decide) rfl (by decide) (by decide) (by decide) (by decide)
    (by decide) (Or.inl ⟨rfl, rfl⟩)

theorem write_previous (b : Board) (c : Coords) (v : Option ChessPiece) (b1 : Board)
    (h : b.write c v = some b1) : b1.previous = b.previous := by
  unfold Board.write at h
  split at h
  · exact Option.noConfusion h
  · split at h
    · exact (Option.some.inj h).symm ▸ rfl
    · exact Option.noConfusion h

theorem make_move_previous (b : Board) (m : JSONMove) (b' : Board)
    (h : b.make_move m = some b') : b'.previous.isSome = true := by
  unfold Board.make_move at h
  by_cases hp : b.previous.isSome = true
  · rw [if_pos hp] at h
    exact Option.noConfusion h
  rw [if_neg hp] at h
  cases hnc : m.new_coords with
  | none => rw [hnc] at h; exact Option.noConfusion h
  | some nc =>
  rw [hnc] at h
  simp only [] at h
  cases hcc : m.current_coords with
  | none => rw [hcc] at h; exact Option.noConfusion h
  | some cc =>
  rw [hcc] at h
  simp only [] at h
  cases hrn : b.read nc with
  | none => rw [hrn] at h; exact Option.noConfusion h
  | some destVal =>
  rw [hrn] at h
  simp only [] at h
  cases hrc : b.read cc with
  | none => rw [hrc] at h; exact Option.noConfusion h
  | some curOpt =>
  rw [hrc] at h
  cases curOpt with
  | none => exact Option.noConfusion h
  | some cur =>
  simp only [] at h
  cases hw1 : Board.write
      { pieces := b.pieces, taken := b.taken, previous := some (m, destVal, cur.kind) }
      cc none with
  | none => rw [hw1] at h; exact Option.noConfusion h
  | some b1 =>
  rw [hw1] at h
  simp only [] at h
  cases hw2 : b1.write nc (some cur) with
  | none => rw [hw2] at h; exact Option.noConfusion h
  | some b2 =>
  rw [hw2] at h
  simp only [] at h
  have hb2 : b2.previous.isSome = true := by
    rw [write_previous _ _ _ _ hw2, write_previous _ _ _ _ hw1]
    rfl
  cases hr2 : b2.read nc with
  | none => rw [hr2] at h; exact Option.noConfusion h
  | some pOpt =>
  rw [hr2] at h
  cases pOpt with
  | none => exact Option.some.inj h ▸ hb2
  | some p =>
  simp only [] at h
  by_cases hcond : (p.is_white && m.ny == 0 || !p.is_white && m.ny == 7) = true
  · rw [if_pos hcond] at h
    rw [write_previous _ _ _ _ h]
    exact hb2
  · rw [if_neg hcond] at h
    exact Option.some.inj h ▸ hb2

theorem undo_move_previous (b : Board) (b' : Board)
    (h : b.undo_move = some b') : b'.previous = none := by
  unfold Board.undo_move at h
  cases hp : b.previous with
  | none => rw [hp] at h; exact Option.noConfusion h
  | some trip =>
  rw [hp] at h
  simp only [] at h
  obtain ⟨m, tk, old_kind⟩ := trip
  cases hcc : m.current_coords with
  | none => rw [hcc] at h; exact Option.noConfusion h
  | some cc =>
  rw [hcc] at h
  simp only [] at h
  cases hnc : m.new_coords with
  | none => rw [hnc] at h; exact Option.noConfusion h
  | some nc =>
  rw [hnc] at h
  simp only [] at h
  cases hrn : Board.read { pieces := b.pieces, taken := b.taken, previous := none } nc with
  | none => rw [hrn] at h; exact Option.noConfusion h
  | some nv =>
  rw [hrn] at h
  simp only [] at h
  cases hw1 : Board.write { pieces := b.pieces, taken := b.taken, previous := none } cc nv with
  | none => rw [hw1] at h; exact Option.noConfusion h
  | some b1 =>
  rw [hw1] at h
  simp only [] at h
  cases hw2 : b1.write nc tk with
  | none => rw [hw2] at h; exact Option.noConfusion h
  | some b2 =>
  rw [hw2] at h
  simp only [] at h
  have hb2 : b2.previous = none := by
    rw [write_previous _ _ _ _ hw2, write_previous _ _ _ _ hw1]
  cases hr2 : b2.read cc with
  | none => rw [hr2] at h; exact Option.noConfusion h
  | some pOpt =>
  rw [hr2] at h
  cases pOpt with
  | none => exact Option.some.inj h ▸ hb2
  | some piece =>
  simp only [] at h
  rw [write_previous _ _ _ _ h]
  exact hb2

theorem move_worked_previous (b : Board) (tk : Bool) (b' : Board)
    (h : b.move_worked tk = some b') : b'.previous = none := by
  unfold Board.move_worked at h
  cases tk with
  | false =>
    simp only [Bool.false_eq_true, if_false] at h
    exact (Option.some.inj h).symm ▸ rfl
  | true =>
    simp only [if_true] at h
    cases hp : b.previous with
    | none => rw [hp] at h; exact Option.noConfusion h
    | some trip =>
      rw [hp] at h
      obtain ⟨m, p, k⟩ := trip
      cases p with
      | none => exact (Option.some.inj h).symm ▸ rfl
      | some piece => exact (Option.some.inj h).symm ▸ rfl

theorem new_json_previous (l : List JSONPiece) (b : Board)
    (h : Board.new_json l = .ok b) : b.previous = none := by
  unfold Board.new_json at h
  cases hig : into_game_list l with
  | error e => rw [hig] at h; exact Except.noConfusion h
  | ok pair =>
    rw [hig] at h
    obtain ⟨p, t⟩ := pair
    exact (Except.ok.inj h).symm ▸ rfl

/-- Claim C5: the previous-move cache is present exactly in the
awaiting-confirmation state — the default board and every successful
`new_json`, `undo_move` and `move_worked` leave it `none`, while every
successful `make_move` leaves it `some`. -/
theorem claim_c5 :
    Board.defaultBoard.previous = none ∧
    (∀ l b, Board.new_json l = .ok b → b.previous = none) ∧
    (∀ b m b', Board.make_move b m = some b' → b'.previous.isSome = true) ∧
    (∀ b b', Board.undo_move b = some b' → b'.previous = none) ∧
    (∀ b tk b', Board.move_worked b tk = some b' → b'.previous = none) :=
  ⟨rfl, new_json_previous, make_move_previous, undo_move_previous, move_worked_previous⟩

/-- Concrete instances of claim C5 at each transition. -/
theorem claim_c5_witness :
    Board.defaultBoard.previous = none ∧
    ({ pieces := List.replicate 64 none, taken := [], previous := none } : Board).previous
      = none ∧
    (movedBoard
      { pieces := (List.replicate 64 none).set 0
          (some { kind := ChessPieceKind.Pawn, is_white := true }),
        taken := [], previous := none }
      { id := 0, x := 0, y := 0, nx := 1, ny := 1 }
      { kind := ChessPieceKind.Pawn, is_white := true } none).previous.isSome = true ∧
    ({ pieces := (List.replicate 64 none).set 0
         (some { kind := ChessPieceKind.Pawn, is_white := true }),
       taken := [], previous := none } : Board).previous = none ∧
    ({ pieces := (((List.replicate 64 none).set 0
           (some { kind := ChessPieceKind.Pawn, is_white := true })).set 0 none).set 9
           (some { kind := ChessPieceKind.Pawn, is_white := true }),
       taken := [], previous := none } : Board).previous = none :=
  ⟨claim_c5.1,
   claim_c5.2.1 []
     { pieces := List.replicate 64 none, taken := [], previous := none } rfl,
   claim_c5.2.2.1
     { pieces := (List.replicate 64 none).set 0
         (some { kind := ChessPieceKind.Pawn, is_white := true }),
       taken := [], previous := none }
     { id := 0, x := 0, y := 0, nx := 1, ny := 1 }
     (movedBoard
       { pieces := (List.replicate 64 none).set 0
           (some { kind := ChessPieceKind.Pawn, is_white := true }),
         taken := [], previous := none }
       { id := 0, x := 0, y := 0, nx := 1, ny := 1 }
       { kind := ChessPieceKind.Pawn, is_white := true } none) (by decide),
   claim_c5.2.2.2.1
     (movedBoard
       { pieces := (List.replicate 64 none).set 0
           (some { kind := ChessPieceKind.Pawn, is_white := true }),
         taken := [], previous := none }
       { id := 0, x := 0, y := 0, nx := 1, ny := 1 }
       { kind := ChessPieceKind.Pawn, is_white := true } none)
     { pieces := (List.replicate 64 none).set 0
         (some { kind := ChessPieceKind.Pawn, is_white := true }),
       taken := [], previous := none } (by decide),
   claim_c5.2.2.2.2
     (movedBoard
       { pieces := (List.replicate 64 none).set 0
           (some { kind := ChessPieceKind.Pawn, is_white := true }),
         taken := [], previous := none }
       { id := 0, x := 0, y := 0, nx := 1, ny := 1 }
       { kind := ChessPieceKind.Pawn, is_white := true } none)
     false
     { pieces := (((List.replicate 64 none).set 0
         (some { kind := ChessPieceKind.Pawn, is_white := true })).set 0 none).set 9
         (some { kind := ChessPieceKind.Pawn, is_white := true }),
       taken := [], previous := none } (by decide)⟩

theorem runRefreshes_true_httpErr (n : Nat) :
    runRefreshes true (List.replicate n .httpErr) = (true, List.replicate n .UseExisting) := by
  induction n with
  | zero => rfl
  | succ k ih => simp [List.replicate_succ, runRefreshes, do_update_list, ih]

/-- Counterexample to claim C3 as stated: a refresh that fails because a
2xx response body does not parse emits `NoConnectionList` even when the
previous-failure flag is already set (the flag is cleared on HTTP success
before parsing), instead of the claimed `UseExisting`; the set flag is
reachable, e.g. after one transport failure. -/
theorem claim_c3_counterexample :
    do_update_list true .okParseErr = (true, .NoConnectionList) ∧
    BoardMessage.NoConnectionList ≠ BoardMessage.UseExisting ∧
    do_update_list false .httpErr = (true, .NoConnectionList) := by
  refine ⟨rfl, ?_, rfl⟩
  intro h
  exact BoardMessage.noConfusion h

/-- Claim C3, amended: for transport/HTTP-status failures the hysteresis
holds as claimed — the first failure after a success emits
`NoConnectionList` and sets the flag, a repeat failure emits
`UseExisting`, and in a run of consecutive transport failures only the
first emits the placeholder; successes clear the flag; but a
2xx-with-unparseable-body failure always emits `NoConnectionList` and
sets the flag, regardless of the previous flag value. -/
theorem claim_c3 :
    (do_update_list false .httpErr = (true, .NoConnectionList)) ∧
    (do_update_list true .httpErr = (true, .UseExisting)) ∧
    (∀ f l, do_update_list f (.okList l) = (false, .NewList l)) ∧
    (∀ f, do_update_list f .ok208 = (false, .UseExisting)) ∧
    (∀ f, do_update_list f .okParseErr = (true, .NoConnectionList)) ∧
    (∀ n, runRefreshes false (List.replicate (n + 1) .httpErr) =
      (true, .NoConnectionList :: List.replicate n .UseExisting)) := by
  refine ⟨rfl, rfl, fun f l => by cases f <;> rfl, fun f => by cases f <;> rfl,
    fun f => by cases f <;> rfl, fun n => ?_⟩
  simp [List.replicate_succ, runRefreshes, do_update_list, runRefreshes_true_httpErr n]

/-- Claim C7: a `MakeMove` processed while the move-in-flight guard is
set emits exactly `CouldntProcessMove`, performs no network call, and
leaves the guard set. -/
theorem claim_c7 (m : JSONMove) (rsp : HttpMoveResult) :
    make_move_arm true m rsp = (true, [.send (.Move .CouldntProcessMove)]) ∧
    WorkerAction.netCall ∉ (make_move_arm true m rsp).2 := by
  refine ⟨rfl, ?_⟩
  intro hmem
  simp [make_move_arm] at hmem

/-- Counterexample to claim C4 as stated: the controller's second press
sends `MakeMove` while leaving its board untouched (no optimistic
transition happens before the dispatch), and the worker's `do_make_move`
emits the `TmpMove` event synchronously, before its network call. -/
theorem claim_c4_counterexample :
    (mouse_input
      { id := 7, board := .Left Board.defaultBoard, last_pressed := .OnBoard 0 0,
        ex_last_pressed := .OffBoard } (1, 1)).2 =
      [.MakeMove { id := 7, x := 0, y := 0, nx := 1, ny := 1 }] ∧
    (mouse_input
      { id := 7, board := .Left Board.defaultBoard, last_pressed := .OnBoard 0 0,
        ex_last_pressed := .OffBoard } (1, 1)).1.board = .Left Board.defaultBoard ∧
    do_make_move { id := 7, x := 0, y := 0, nx := 1, ny := 1 } .otherErr =
      [.send (.TmpMove { id := 7, x := 0, y := 0, nx := 1, ny := 1 }), .netCall,
       .send (.Move .CouldntProcessMove)] := by
  exact ⟨rfl, by decide, rfl⟩

/-- Claim C4, amended: the controller sends `MakeMove` without changing
its board; the worker emits the `TmpMove` preview before contacting the
network; and the controller applies the optimistic `make_move` only when
it processes the `TmpMove` event — the preview therefore always happens
after the command's dispatch, never before. -/
theorem claim_c4 (g : ChessGame) (x y px py : Nat)
    (h : g.last_pressed = .OnBoard x y) :
    (mouse_input g (px, py)).1.board = g.board ∧
    (mouse_input g (px, py)).2 =
      [.MakeMove { id := g.id, x := x, y := y, nx := px, ny := py }] ∧
    (∀ m rsp, do_make_move m rsp =
      [.send (.TmpMove m), .netCall, .send (.Move (classify_move_rsp rsp))]) ∧
    (∀ bo m, apply_board_message (.Left bo) (.TmpMove m) = (bo.make_move m).map .Right) := by
  unfold mouse_input
  rw [h]
  exact ⟨rfl, rfl, fun _ _ => rfl, fun _ _ => rfl⟩

/-- Concrete instance of amended claim C4 for a second press at
`(4, 5)` with square `(2, 3)` selected. -/
theorem claim_c4_witness :
    (mouse_input
      { id := 7, board := .Left Board.defaultBoard, last_pressed := .OnBoard 2 3,
        ex_last_pressed := .OffBoard } (4, 5)).1.board =
      ({ id := 7, board := .Left Board.defaultBoard, last_pressed := .OnBoard 2 3,
         ex_last_pressed := .OffBoard } : ChessGame).board ∧
    (mouse_input
      { id := 7, board := .Left Board.defaultBoard, last_pressed := .OnBoard 2 3,
        ex_last_pressed := .OffBoard } (4, 5)).2 =
      [.MakeMove { id := 7, x := 2, y := 3, nx := 4, ny := 5 }] ∧
    (∀ m rsp, do_make_move m rsp =
      [.send (.TmpMove m), .netCall, .send (.Move (classify_move_rsp rsp))]) ∧
    (∀ bo m, apply_board_message (.Left bo) (.TmpMove m) = (bo.make_move m).map .Right) :=
  claim_c4
    { id := 7, board := .Left Board.defaultBoard, last_pressed := .OnBoard 2 3,
      ex_last_pressed := .OffBoard } 2 3 4 5 rfl

/-- Counterexample to claim C10 as stated: with two events queued,
`update_list` leaves one unprocessed event behind when the tick ends. -/
theorem claim_c10_counterexample :
    ∃ r, update_list
      { id := 0, board := .Left Board.defaultBoard, last_pressed := .OffBoard,
        ex_last_pressed := .OffBoard } [.UseExisting, .UseExisting] false = some r ∧
      r.2.1 ≠ [] := by
  refine ⟨_, rfl, by decide⟩

/-- Claim C10, amended: each `update_list` tick processes at most one
queued event (a single non-blocking receive), leaves the rest queued,
and issues exactly one refresh command (`UpdateNOW` when the timer is
ignored, `UpdateList` otherwise). -/
theorem claim_c10 (g : ChessGame) (queue : List BoardMessage) (it : Bool)
    (r : ChessGame × List BoardMessage × List MessageToWorker)
    (h : update_list g queue it = some r) :
    r.2.1 = queue.drop 1 ∧
    r.2.2 = [if it then MessageToWorker.UpdateNOW else MessageToWorker.UpdateList] ∧
    (queue = [] → r.1 = g) := by
  unfold update_list at h
  cases queue with
  | nil => exact (Option.some.inj h) ▸ ⟨rfl, rfl, fun _ => rfl⟩
  | cons msg rest =>
    simp only [] at h
    cases ha : apply_board_message g.board msg with
    | none => rw [ha] at h; exact Option.noConfusion h
    | some b2 =>
      rw [ha] at h
      exact (Option.some.inj h) ▸ ⟨rfl, rfl, fun hq => List.noConfusion hq⟩

/-- Concrete instance of amended claim C10 on an empty queue. -/
theorem claim_c10_witness :
    (({ id := 0, board := .Left Board.defaultBoard, last_pressed := .OffBoard,
        ex_last_pressed := .OffBoard } : ChessGame), ([] : List BoardMessage),
      [MessageToWorker.UpdateList]).2.1 = ([] : List BoardMessage).drop 1 ∧
    (({ id := 0, board := .Left Board.defaultBoard, last_pressed := .OffBoard,
        ex_last_pressed := .OffBoard } : ChessGame), ([] : List BoardMessage),
      [MessageToWorker.UpdateList]).2.2 =
      [if false then MessageToWorker.UpdateNOW else MessageToWorker.UpdateList] ∧
    (([] : List BoardMessage) = [] →
      (({ id := 0, board := .Left Board.defaultBoard, last_pressed := .OffBoard,
          ex_last_pressed := .OffBoard } : ChessGame), ([] : List BoardMessage),
        [MessageToWorker.UpdateList]).1 =
        { id := 0, board := .Left Board.defaultBoard, last_pressed := .OffBoard,
          ex_last_pressed := .OffBoard }) :=
  claim_c10
    { id := 0, board := .Left Board.defaultBoard, last_pressed := .OffBoard,
      ex_last_pressed := .OffBoard } [] false _ rfl

theorem tryFromI32_not_offboard (x y : Int) (a b : Nat)
    (h : Coords.tryFromI32 x y = .ok (.OnBoard a b)) : ¬(x = -1 ∧ y = -1) := by
  intro hne
  unfold Coords.tryFromI32 at h
  rw [if_pos hne] at h
  exact Coords.noConfusion (Except.ok.inj h)

theorem tryFromI32_offboard (x y : Int)
    (h : Coords.tryFromI32 x y = .ok .OffBoard) : x = -1 ∧ y = -1 := by
  by_cases hne : x = -1 ∧ y = -1
  · exact hne
  · unfold Coords.tryFromI32 at h
    rw [if_neg hne] at h
    split_ifs at h with h1 h2 h3 h4
    all_goals
      first
        | exact Except.noConfusion h
        | exact Coords.noConfusion (Except.ok.inj h)

theorem intoGameListAux_captured (l : List JSONPiece) :
    ∀ v v2 g c, intoGameListAux l v v2 = .ok (g, c) → c = v2 ++ offboardPieces l := by
  induction l with
  | nil =>
    intro v v2 g c h
    cases Except.ok.inj h
    simp [offboardPieces]
  | cons p rest ih =>
    intro v v2 g c h
    unfold intoGameListAux at h
    cases hk : ChessPieceKind.fromString p.kind with
    | error e => rw [hk] at h; exact Except.noConfusion h
    | ok k =>
    rw [hk] at h
    simp only [] at h
    cases hco : Coords.tryFromI32 p.x p.y with
    | error e => rw [hco] at h; exact Except.noConfusion h
    | ok coords =>
    rw [hco] at h
    simp only [] at h
    cases coords with
    | OffBoard =>
      simp only [Coords.to_usize] at h
      obtain ⟨hx1, hy1⟩ := tryFromI32_offboard p.x p.y hco
      rw [ih _ _ _ _ h]
      simp [offboardPieces, List.filterMap_cons, hx1, hy1, hk, Except.toOption]
    | OnBoard a b =>
      simp only [Coords.to_usize] at h
      cases hv : v[(b * 8 + a) % 256]? with
      | none => rw [hv] at h; exact Except.noConfusion h
      | some cur =>
      rw [hv] at h
      simp only [] at h
      by_cases hc : cur.isSome = true
      · rw [if_pos hc] at h
        exact Except.noConfusion h
      · rw [if_neg hc] at h
        rw [ih _ _ _ _ h]
        have hnot := tryFromI32_not_offboard p.x p.y a b hco
        simp [offboardPieces, List.filterMap_cons, hnot]

theorem intoGameListAux_allOk (l : List JSONPiece) :
    ∀ v v2 r, intoGameListAux l v v2 = .ok r →
      ∀ p ∈ l, (Coords.tryFromI32 p.x p.y).isOk = true := by
  induction l with
  | nil =>
    intro v v2 r h p hp
    exact absurd hp (List.not_mem_nil p)
  | cons q rest ih =>
    intro v v2 r h p hp
    unfold intoGameListAux at h
    cases hk : ChessPieceKind.fromString q.kind with
    | error e => rw [hk] at h; exact Except.noConfusion h
    | ok k =>
    rw [hk] at h
    simp only [] at h
    cases hco : Coords.tryFromI32 q.x q.y with
    | error e => rw [hco] at h; exact Except.noConfusion h
    | ok coords =>
    rw [hco] at h
    simp only [] at h
    rcases List.mem_cons.mp hp with rfl | hrest
    · rw [hco]; rfl
    · cases coords with
      | OffBoard =>
        simp only [Coords.to_usize] at h
        exact ih _ _ _ h p hrest
      | OnBoard a b =>
        simp only [Coords.to_usize] at h
        cases hv : v[(b * 8 + a) % 256]? with
        | none => rw [hv] at h; exact Except.noConfusion h
        | some cur =>
        rw [hv] at h
        simp only [] at h
        by_cases hc : cur.isSome = true
        · rw [if_pos hc] at h
          exact Except.noConfusion h
        · rw [if_neg hc] at h
          exact ih _ _ _ h p hrest

/-- Counterexample to claim C8 as stated: a piece at the out-of-range
coordinates `(8, 0)`, and one at the negative coordinates `(-2, -2)`,
make `into_game_list` fail instead of being routed to the captured
list — only exactly `(-1, -1)` denotes off-board. -/
theorem claim_c8_counterexample :
    (∃ e, into_game_list [{ x := 8, y := 0, kind := "rook", is_white := true }] = .error e) ∧
    (∃ e, into_game_list [{ x := -2, y := -2, kind := "rook", is_white := true }] = .error e) :=
  ⟨⟨_, rfl⟩, ⟨_, rfl⟩⟩

/-- Claim C8, amended: exactly the pieces with coordinates `(-1, -1)` are
routed to the captured list (in order) by a successful `into_game_list`;
any other negative or out-of-range coordinate pair fails the coordinate
conversion, and a successful conversion implies every piece's coordinates
were accepted. -/
theorem claim_c8 :
    (∀ l g c, into_game_list l = .ok (g, c) → c = offboardPieces l) ∧
    (∀ x y : Int, ¬(x = -1 ∧ y = -1) → (x < 0 ∨ 7 < x ∨ y < 0 ∨ 7 < y) →
      ∃ e, Coords.tryFromI32 x y = .error e) ∧
    (∀ l r, into_game_list l = .ok r →
      ∀ p ∈ l, (Coords.tryFromI32 p.x p.y).isOk = true) := by
  refine ⟨fun l g c h => ?_, fun x y hne hrange => ?_, fun l r h => ?_⟩
  · have := intoGameListAux_captured l _ _ _ _ h
    simpa using this
  · unfold Coords.tryFromI32
    rw [if_neg hne]
    by_cases h1 : x < 0
    · rw [if_pos h1]; exact ⟨_, rfl⟩
    rw [if_neg h1]
    by_cases h2 : x > 7
    · rw [if_pos h2]; exact ⟨_, rfl⟩
    rw [if_neg h2]
    by_cases h3 : y < 0
    · rw [if_pos h3]; exact ⟨_, rfl⟩
    rw [if_neg h3]
    by_cases h4 : y > 7
    · rw [if_pos h4]; exact ⟨_, rfl⟩
    exact absurd hrange (by omega)
  · exact intoGameListAux_allOk l _ _ _ h

/-- Concrete instances of amended claim C8: a `(-1, -1)` rook lands in
the captured list, `(8, 0)` fails the coordinate conversion, and
`(-1, -1)` passes it. -/
theorem claim_c8_witness :
    ([{ kind := ChessPieceKind.Rook, is_white := true }] : List ChessPiece) =
      offboardPieces [{ x := -1, y := -1, kind := "rook", is_white := true }] ∧
    (∃ e, Coords.tryFromI32 8 0 = .error e) ∧
    (Coords.tryFromI32 (-1) (-1)).isOk = true :=
  ⟨claim_c8.1 [{ x := -1, y := -1, kind := "rook", is_white := true }]
     (List.replicate 64 none) [{ kind := ChessPieceKind.Rook, is_white := true }] rfl,
   claim_c8.2.1 8 0 (by omega) (by omega),
   claim_c8.2.2 [{ x := -1, y := -1, kind := "rook", is_white := true }]
     (List.replicate 64 none, [{ kind := ChessPieceKind.Rook, is_white := true }]) rfl
     { x := -1, y := -1, kind := "rook", is_white := true } (List.mem_singleton.mpr rfl)⟩

/-- Counterexample to claim C9 as stated: the public unchecked
`From<(u8, u8)>` constructor accepts `(8, 8)`, producing an on-board
coordinate outside `[0,7]x[0,7]` whose linear index 72 is not below
64. -/
theorem claim_c9_counterexample :
    Coords.fromU8Pair 8 8 = Coords.OnBoard 8 8 ∧
    ¬((8 : Nat) ≤ 7) ∧
    Coords.to_usize (Coords.fromU8Pair 8 8) = some 72 ∧
    ¬((72 : Nat) < 64) := by
  refine ⟨rfl, by omega, rfl, by omega⟩

/-- Claim C9, amended: every `Coords` built through the checked
conversions (`TryFrom<(u32, u32)>` and `TryFrom<(i32, i32)>`) that is on
the board has both components at most 7, and its `to_usize` index is
below 64; the unchecked `From<(u8, u8)>` conversion gives no such
guarantee. -/
theorem claim_c9 :
    (∀ x y a b : Nat, Coords.tryFromU32 x y = .ok (.OnBoard a b) →
      a ≤ 7 ∧ b ≤ 7 ∧ Coords.to_usize (.OnBoard a b) = some (b * 8 + a) ∧ b * 8 + a < 64) ∧
    (∀ (x y : Int) (a b : Nat), Coords.tryFromI32 x y = .ok (.OnBoard a b) →
      a ≤ 7 ∧ b ≤ 7 ∧ Coords.to_usize (.OnBoard a b) = some (b * 8 + a) ∧ b * 8 + a < 64) := by
  constructor
  · intro x y a b h
    unfold Coords.tryFromU32 at h
    split_ifs at h with h1 h2
    all_goals
      first
        | exact Except.noConfusion h
        | (obtain ⟨rfl, rfl⟩ := Coords.OnBoard.inj (Except.ok.inj h)
           exact ⟨by omega, by omega, to_usize_eq _ _ (by omega) (by omega), by omega⟩)
  · intro x y a b h
    unfold Coords.tryFromI32 at h
    split_ifs at h with h0 h1 h2 h3 h4
    all_goals
      first
        | exact Except.noConfusion h
        | exact Coords.noConfusion (Except.ok.inj h)
        | (obtain ⟨rfl, rfl⟩ := Coords.OnBoard.inj (Except.ok.inj h)
           exact ⟨by omega, by omega, to_usize_eq _ _ (by omega) (by omega), by omega⟩)

/-- Concrete instance of amended claim C9 at `(3, 4)`. -/
theorem claim_c9_witness :
    (3 : Nat) ≤ 7 ∧ (4 : Nat) ≤ 7 ∧
    Coords.to_usize (.OnBoard 3 4) = some (4 * 8 + 3) ∧ 4 * 8 + 3 < 64 :=
  claim_c9.1 3 4 3 4 rfl

end Theorems

end AsyncChess
